import Mathlib

/-!
Shallow embedding of `youtube_scraper.py` (YouTubeChannelScraper) for
verification of the specification's claims.

Python strings are modelled as `List Char`; Python's `str.split(sep)` for a
one-character separator is `splitOnChar`, `str.startswith` is
`List.isPrefixOf`, slicing `s[a:]` is `List.drop`, `s[:n]` is `List.take`.
Fallible Python operations (`int(...)`, `datetime.fromisoformat`) are
modelled with `Option`; an uncaught exception is an `Except.error` or a
distinguished constructor, as noted at each definition.
-/

abbrev Str := List Char

/-- Python `s.split(c)` for a single-character separator `c`:
`"".split(c) = [""]`, and each occurrence of `c` starts a new field. -/
def splitOnChar (c : Char) : Str → List Str
  | [] => [[]]
  | x :: xs =>
    match splitOnChar c xs with
    | [] => [[]]
    | y :: ys => if x = c then [] :: y :: ys else (x :: y) :: ys

/-- Numeric value of a decimal digit string (most significant first). -/
def digitsVal (l : Str) : Nat :=
  l.foldl (fun n c => n * 10 + (c.toNat - 48)) 0

/-- Python `int(s)` restricted to the shapes that occur in this program:
succeeds exactly on non-empty all-digit strings, returning their value;
`none` models the `ValueError` that `int` raises otherwise.  (Python's `int`
additionally tolerates surrounding whitespace, signs and underscores, none of
which can reach the call sites embedded here.) -/
def pyInt (l : Str) : Option Nat :=
  if l ≠ [] ∧ l.all Char.isDigit then some (digitsVal l) else none

/-- Decimal rendering of a natural number, as Python's `str`/`f"{n}"`. -/
def natDigits (n : Nat) : Str := (Nat.repr n).data

/-- Python `f"{n:02d}"` for a natural number: zero-pad to width 2. -/
def pad2 (n : Nat) : Str :=
  if n < 10 then '0' :: natDigits n else natDigits n

/-- The final formatting step of `_parse_duration` (lines 330-333):
`f"{hours}:{minutes:02d}:{seconds:02d}"` when `hours > 0`, else
`f"{minutes}:{seconds:02d}"`. -/
def formatClock (hours minutes seconds : Nat) : Str :=
  if hours > 0 then
    natDigits hours ++ ':' :: pad2 minutes ++ ':' :: pad2 seconds
  else
    natDigits minutes ++ ':' :: pad2 seconds

/-- One component step of `_parse_duration`: in Python,
`if c in duration: v = int(duration.split(c)[0]); duration = duration.split(c)[1]`.
Returns the parsed value and the remaining string; `none` models the
`ValueError` raised by `int`. -/
def parseComp (c : Char) (d : Str) : Option (Nat × Str) :=
  if c ∈ d then
    match pyInt ((splitOnChar c d).getD 0 []) with
    | none => none
    | some v => some (v, (splitOnChar c d).getD 1 [])
  else some (0, d)

/-- Embedding of `YouTubeChannelScraper._parse_duration` (lines 296-333).
`none` models an uncaught `ValueError` from `int`. -/
def parseDuration (dur : Str) : Option Str :=
  if dur = [] then some ('0' :: ':' :: '0' :: '0' :: [])
  else
    match parseComp 'H' (dur.drop 2) with
    | none => none
    | some (hours, d1) =>
      match parseComp 'M' d1 with
      | none => none
      | some (minutes, d2) =>
        match parseComp 'S' d2 with
        | none => none
        | some (seconds, _) => some (formatClock hours minutes seconds)

/-- An optional duration component: `none` means the component (and its
marker) is absent from the input; `some d` means the digit string `d`
followed by the marker. -/
def optComp (o : Option Str) (marker : Char) : Str :=
  match o with
  | none => []
  | some d => d ++ [marker]

/-- A well-formed compact duration string: `PT` followed by optional
hour/minute/second components, each a digit string terminated by its
marker. -/
def mkDur (oh om os : Option Str) : Str :=
  'P' :: 'T' :: (optComp oh 'H' ++ (optComp om 'M' ++ optComp os 'S'))

/-- A present component must be a non-empty digit string. -/
def compOk (o : Option Str) : Prop :=
  match o with
  | none => True
  | some d => d ≠ [] ∧ d.all Char.isDigit = true

instance (o : Option Str) : Decidable (compOk o) := by
  unfold compOk
  cases o <;> infer_instance

/-- Value of an optional component (absent components default to 0). -/
def compVal (o : Option Str) : Nat :=
  match o with
  | none => 0
  | some d => digitsVal d

/-! ## Video records and `_parse_video_data` (lines 249-293) -/

/-- The `VideoMetadata` dataclass (lines 24-40). -/
structure VideoMetadata where
  video_id : Str
  url : Str
  title : Str
  description : Str
  channel_title : Str
  published_at : Str
  duration : Str
  view_count : Nat
  like_count : Nat
  comment_count : Nat
  thumbnail_url : Str
  tags : List Str
  category_id : Str
  language : Str
deriving DecidableEq

/-- A raw item of a `videos().list` response, with exactly the fields
`_parse_video_data` reads.  `Option` marks keys that may be absent (the code
reads them with `.get(...)`); statistics values are the decimal strings the
API returns. -/
structure RawVideo where
  id : Str
  title : Option Str
  description : Option Str
  channelTitle : Option Str
  publishedAt : Option Str
  duration : Option Str
  viewCount : Option Str
  likeCount : Option Str
  commentCount : Option Str
  thumbMaxres : Option Str
  thumbHigh : Option Str
  thumbMedium : Option Str
  thumbDefault : Option Str
  tags : Option (List Str)
  categoryId : Option Str
  language : Option Str
deriving DecidableEq

/-- Python `int(statistics.get(key, 0))`: an absent key yields `int(0) = 0`;
a present key holds a decimal string parsed by `int`. -/
def pyIntStat (o : Option Str) : Option Nat :=
  match o with
  | none => some 0
  | some s => pyInt s

/-- Thumbnail selection (lines 267-276): fixed quality-preference order
maxres, high, medium, default; empty string when none is present. -/
def pickThumbnail (v : RawVideo) : Str :=
  match v.thumbMaxres with
  | some u => u
  | none =>
    match v.thumbHigh with
    | some u => u
    | none =>
      match v.thumbMedium with
      | some u => u
      | none =>
        match v.thumbDefault with
        | some u => u
        | none => []

/-- The fixed URL stem of line 280 (`f"https://www.youtube.com/watch?v={id}"`). -/
def urlStem : Str := "https://www.youtube.com/watch?v=".data

/-- Embedding of `YouTubeChannelScraper._parse_video_data` (lines 249-293).
`none` models an uncaught `ValueError` (from `_parse_duration` or from
`int(...)` on a malformed statistics value). -/
def parseVideoData (v : RawVideo) : Option VideoMetadata :=
  match parseDuration (v.duration.getD []) with
  | none => none
  | some dur =>
    match pyIntStat v.viewCount, pyIntStat v.likeCount, pyIntStat v.commentCount with
    | some vc, some lc, some cc =>
      some { video_id := v.id
             url := urlStem ++ v.id
             title := v.title.getD []
             description := v.description.getD []
             channel_title := v.channelTitle.getD []
             published_at := v.publishedAt.getD []
             duration := dur
             view_count := vc
             like_count := lc
             comment_count := cc
             thumbnail_url := pickThumbnail v
             tags := v.tags.getD []
             category_id := v.categoryId.getD []
             language := v.language.getD [] }
    | _, _, _ => none

/-! ## The listing loop: `get_all_video_ids` (lines 119-202)

Upstream responses are modelled as a scripted tape of per-call outcomes:
each executed network call consumes the next tape entry.  A `403` outcome
is the rate-limit signal; the loop sleeps and retries (the sleep itself is
wall-clock behaviour outside the embedding). -/

/-- A `search().list` response: `items = none` models a response without the
`items` key; `nextPageToken` is the optional continuation cursor. -/
structure SearchPage where
  items : Option (List Str)
  nextPageToken : Option Str
deriving DecidableEq

/-- Outcome of one attempted `search().list` call. -/
inductive ListOutcome where
  | ok : SearchPage → ListOutcome
  | httpErr : Nat → ListOutcome
deriving DecidableEq

/-- Result of `get_all_video_ids`: the returned id list, or the uncaught
`Exception` raised for a non-403 `HttpError` (line 199). -/
inductive ListResult where
  | ok : List Str → ListResult
  | fatal : Nat → ListResult
deriving DecidableEq

/-- Python `if max_videos and len(video_ids) >= max_videos`: `None` and `0`
are falsy, so no cap applies for them. -/
def reachedMax (maxV : Option Nat) (n : Nat) : Bool :=
  match maxV with
  | none => false
  | some m => if m = 0 then false else decide (n ≥ m)

/-- Python `video_ids[:max_videos]` (line 182). -/
def truncateTo (maxV : Option Nat) (l : List Str) : List Str :=
  match maxV with
  | none => l
  | some m => l.take m

/-- The inner item loop (lines 173-178): append each id, breaking as soon as
the cap is reached. -/
def collectItems (maxV : Option Nat) (acc : List Str) : List Str → List Str
  | [] => acc
  | x :: xs =>
    let acc2 := acc ++ [x]
    if reachedMax maxV acc2.length then acc2 else collectItems maxV acc2 xs

/-- The `while True` loop of `get_all_video_ids` (lines 144-199) over a
scripted outcome tape.  `none` means the tape was exhausted while the loop
still wanted to issue a call (a model artifact, not a program behaviour). -/
def listLoop (maxV : Option Nat) (acc : List Str) : List ListOutcome → Option ListResult
  | [] => none
  | ListOutcome.httpErr s :: rest =>
    if s = 403 then listLoop maxV acc rest else some (ListResult.fatal s)
  | ListOutcome.ok pg :: rest =>
    match pg.items with
    | none => some (ListResult.ok acc)
    | some items =>
      let acc2 := collectItems maxV acc items
      if reachedMax maxV acc2.length then some (ListResult.ok (truncateTo maxV acc2))
      else
        match pg.nextPageToken with
        | none => some (ListResult.ok acc2)
        | some _ => listLoop maxV acc2 rest

/-- Embedding of `get_all_video_ids`: run the page loop from an empty
accumulator. -/
def getAllVideoIds (maxV : Option Nat) (tape : List ListOutcome) : Option ListResult :=
  listLoop maxV [] tape

/-- A scripted tape for a channel whose listing consists of the given pages:
every page but the last carries a continuation cursor, the last carries
none. -/
def mkListTape : List (List Str) → List ListOutcome
  | [] => []
  | [p] => [ListOutcome.ok ⟨some p, none⟩]
  | p :: ps => ListOutcome.ok ⟨some p, some ['t']⟩ :: mkListTape ps

/-- A scripted tape in which every page carries a continuation cursor, so
the loop can only stop by reaching the cap. -/
def mkListTapeT (pages : List (List Str)) : List ListOutcome :=
  pages.map (fun p => ListOutcome.ok ⟨some p, some ['t']⟩)

/-! ## The batch loop: `get_video_metadata` (lines 204-247) -/

/-- Outcome of one attempted `videos().list` call. -/
inductive MetaOutcome where
  | ok : List RawVideo → MetaOutcome
  | httpErr : Nat → MetaOutcome
deriving DecidableEq

/-- Result of `get_video_metadata`: the collected records together with the
number of network calls issued, or `raised` for an uncaught `ValueError`
escaping `_parse_video_data`. -/
inductive MetaResult where
  | ok : List VideoMetadata → Nat → MetaResult
  | raised : MetaResult
deriving DecidableEq

/-- Fuel-driven worker for `chunk50`; the fuel always suffices because each
step consumes at least one list element. -/
def chunkGo : Nat → List Str → List (List Str)
  | 0, _ => []
  | _, [] => []
  | fuel + 1, x :: xs => ((x :: xs).take 50) :: chunkGo fuel ((x :: xs).drop 50)

/-- The batching of line 221-222: contiguous groups of at most 50 ids
(`video_ids[i:i+50]` for `i = 0, 50, 100, ...`). -/
def chunk50 (l : List Str) : List (List Str) := chunkGo l.length l

/-- The batch loop of `get_video_metadata` (lines 221-245) over a scripted
outcome tape.  Both `except HttpError` arms end in `continue`, which
advances the `for` loop over batches: a 403 outcome sleeps 60 s (wall-clock
behaviour outside the embedding) and then skips the current batch, and any
other `HttpError` skips it immediately — in either case the batch is
dropped, not retried.  Each consumed outcome is one issued call.  `none`
means the tape was exhausted while a call was still wanted (a model
artifact). -/
def metaLoop : List MetaOutcome → List (List Str) → Nat → List VideoMetadata → Option MetaResult
  | _, [], calls, acc => some (MetaResult.ok acc calls)
  | [], _ :: _, _, _ => none
  | MetaOutcome.httpErr s :: rest, _ :: bs, calls, acc =>
    if s = 403 then metaLoop rest bs (calls + 1) acc
    else metaLoop rest bs (calls + 1) acc
  | MetaOutcome.ok items :: rest, _ :: bs, calls, acc =>
    match items.mapM parseVideoData with
    | none => some MetaResult.raised
    | some recs => metaLoop rest bs (calls + 1) (acc ++ recs)

/-- Embedding of `get_video_metadata`: batch the ids and run the loop. -/
def getVideoMetadata (ids : List Str) (tape : List MetaOutcome) : Option MetaResult :=
  metaLoop tape (chunk50 ids) 0 []

/-- A well-formed raw item for a given id: parses with all defaults (its
duration is the absent key, giving `'0:00'`). -/
def mkOkItem (id : Str) : RawVideo :=
  { id := id, title := none, description := none, channelTitle := none
    publishedAt := none, duration := none, viewCount := none, likeCount := none
    commentCount := none, thumbMaxres := none, thumbHigh := none
    thumbMedium := none, thumbDefault := none, tags := none
    categoryId := none, language := none }

/-- The record `mkOkItem id` parses to. -/
def mkOkRec (id : Str) : VideoMetadata :=
  { video_id := id, url := urlStem ++ id, title := [], description := []
    channel_title := [], published_at := [], duration := '0' :: ':' :: '0' :: '0' :: []
    view_count := 0, like_count := 0, comment_count := 0, thumbnail_url := []
    tags := [], category_id := [], language := [] }

/-- A scripted metadata tape in which every batch succeeds with one
well-formed item per requested id. -/
def mkMetaTapeOk (batches : List (List Str)) : List MetaOutcome :=
  batches.map fun b => MetaOutcome.ok (b.map mkOkItem)

/-- A scripted metadata tape for the given batches in which batch `j` fails
with HTTP status `s` and every other batch succeeds with one well-formed
item per requested id. -/
def mkMetaTape : List (List Str) → Nat → Nat → List MetaOutcome
  | [], _, _ => []
  | _ :: bs, 0, s => MetaOutcome.httpErr s :: mkMetaTapeOk bs
  | b :: bs, j + 1, s => MetaOutcome.ok (b.map mkOkItem) :: mkMetaTape bs j s

/-! ## Channel resolution: `get_channel_id` (lines 58-92) -/

/-- An item of a `channels().list` response (only its `id` is read). -/
structure ChanItem where
  id : Str
deriving DecidableEq

/-- The upstream channel-lookup environment: each lookup either returns the
response's item list or fails with an `HttpError` status. -/
structure ChanEnv where
  byId : Str → Except Nat (List ChanItem)
  byUsername : Str → Except Nat (List ChanItem)

/-- The network lookups `get_channel_id` can attempt, in order. -/
inductive ChanCall where
  | byId : ChanCall
  | byUsername : ChanCall
deriving DecidableEq

/-- Result of `get_channel_id`: a channel id, the `ValueError` of line 89
(channel not found), or the wrapping `Exception` of line 92 raised for an
`HttpError`. -/
inductive ChanResult where
  | ok : Str → ChanResult
  | notFound : Str → ChanResult
  | wrappedHttp : Nat → ChanResult
deriving DecidableEq

/-- Embedding of `YouTubeChannelScraper.get_channel_id` (lines 58-92),
instrumented with the list of lookups actually attempted. -/
def getChannelId (env : ChanEnv) (ident : Str) : ChanResult × List ChanCall :=
  if "UC".data.isPrefixOf ident then
    match env.byId ident with
    | Except.error s => (ChanResult.wrappedHttp s, [ChanCall.byId])
    | Except.ok items =>
      if items ≠ [] then (ChanResult.ok ident, [ChanCall.byId])
      else
        match env.byUsername ident with
        | Except.error s => (ChanResult.wrappedHttp s, [ChanCall.byId, ChanCall.byUsername])
        | Except.ok items2 =>
          if items2 ≠ [] then ((ChanResult.ok (items2.headD ⟨[]⟩).id), [ChanCall.byId, ChanCall.byUsername])
          else (ChanResult.notFound ident, [ChanCall.byId, ChanCall.byUsername])
  else
    match env.byUsername ident with
    | Except.error s => (ChanResult.wrappedHttp s, [ChanCall.byUsername])
    | Except.ok items2 =>
      if items2 ≠ [] then ((ChanResult.ok (items2.headD ⟨[]⟩).id), [ChanCall.byUsername])
      else (ChanResult.notFound ident, [ChanCall.byUsername])

/-! ## Date buffering: `scrape_channel` lines 353-374

The Python code parses a date with `datetime.fromisoformat` after replacing
`Z` by `+00:00`, shifts it by `timedelta(days=buffer_days)`, and reformats
it with `strftime('%Y-%m-%dT%H:%M:%SZ')`.  The `datetime` library is
modelled below: parsing accepts the pre-3.11 `fromisoformat` shape
`YYYY-MM-DD[<sep>HH[:MM[:SS[.fff[fff]]]][±HH:MM[:SS]]]` at whole-second
precision, shifting by days walks the proleptic Gregorian calendar, and a
shift leaving the representable year range 1..9999 models the
`OverflowError` that `datetime` arithmetic raises (which the code's
`except ValueError` does not catch). -/

/-- A parsed `datetime` value (timezone and microseconds are accepted on
input, then dropped: the code's output format uses neither). -/
structure PyDateTime where
  year : Nat
  month : Nat
  day : Nat
  hour : Nat
  minute : Nat
  second : Nat
deriving DecidableEq

/-- The Gregorian leap-year rule. -/
def isLeap (y : Nat) : Bool :=
  y % 4 = 0 && (y % 100 ≠ 0 || y % 400 = 0)

/-- Days in a month of the proleptic Gregorian calendar. -/
def daysInMonth (y m : Nat) : Nat :=
  if m = 2 then (if isLeap y then 29 else 28)
  else if m = 4 ∨ m = 6 ∨ m = 9 ∨ m = 11 then 30 else 31

/-- Field ranges of a representable `datetime` value. -/
abbrev ValidDT (d : PyDateTime) : Prop :=
  1 ≤ d.year ∧ d.year ≤ 9999 ∧ 1 ≤ d.month ∧ d.month ≤ 12 ∧
  1 ≤ d.day ∧ d.day ≤ daysInMonth d.year d.month ∧
  d.hour ≤ 23 ∧ d.minute ≤ 59 ∧ d.second ≤ 59

/-- The calendar day before `d` (time of day unchanged); `none` models the
`OverflowError` for stepping below `0001-01-01`. -/
def prevDay (d : PyDateTime) : Option PyDateTime :=
  if d.day > 1 then some { d with day := d.day - 1 }
  else if d.month > 1 then
    some { d with month := d.month - 1, day := daysInMonth d.year (d.month - 1) }
  else if d.year > 1 then some { d with year := d.year - 1, month := 12, day := 31 }
  else none

/-- The calendar day after `d` (time of day unchanged); `none` models the
`OverflowError` for stepping past `9999-12-31`. -/
def nextDay (d : PyDateTime) : Option PyDateTime :=
  if d.day < daysInMonth d.year d.month then some { d with day := d.day + 1 }
  else if d.month < 12 then some { d with month := d.month + 1, day := 1 }
  else if d.year < 9999 then some { d with year := d.year + 1, month := 1, day := 1 }
  else none

/-- `d - timedelta(days=n)`. -/
def shiftBackDays : Nat → PyDateTime → Option PyDateTime
  | 0, d => some d
  | n + 1, d =>
    match prevDay d with
    | none => none
    | some d2 => shiftBackDays n d2

/-- `d + timedelta(days=n)`. -/
def shiftFwdDays : Nat → PyDateTime → Option PyDateTime
  | 0, d => some d
  | n + 1, d =>
    match nextDay d with
    | none => none
    | some d2 => shiftFwdDays n d2

/-- Python `s.replace('Z', '+00:00')`. -/
def replaceZ (s : Str) : Str :=
  s.flatMap fun c => if c = 'Z' then '+' :: '0' :: '0' :: ':' :: '0' :: '0' :: [] else [c]

/-- Value of a decimal digit character. -/
def toDigit (c : Char) : Nat := c.toNat - 48

/-- Split a time string at the first `+` or `-`, which starts the timezone
suffix (as the pre-3.11 `fromisoformat` time parse does). -/
def splitTzStr : Str → Str × Str
  | [] => ([], [])
  | c :: r =>
    if c = '+' ∨ c = '-' then ([], c :: r)
    else
      match splitTzStr r with
      | (a, b) => (c :: a, b)

/-- Well-formedness of an optional `±HH:MM[:SS]` timezone suffix (empty
means no timezone; the offset fields must be in range). -/
def tzOk : Str → Bool
  | [] => true
  | sg :: h1 :: h2 :: ':' :: m1 :: m2 :: rest =>
    (sg = '+' || sg = '-') && h1.isDigit && h2.isDigit && m1.isDigit && m2.isDigit &&
    decide (toDigit h1 * 10 + toDigit h2 < 24) &&
    decide (toDigit m1 * 10 + toDigit m2 < 60) &&
    (match rest with
     | [] => true
     | ':' :: s1 :: s2 :: [] =>
       s1.isDigit && s2.isDigit && decide (toDigit s1 * 10 + toDigit s2 < 60)
     | _ => false)
  | _ => false

/-- Consume an optional fractional-seconds suffix (`.` plus 3 or 6 digits),
returning the remainder; `none` on a malformed suffix. -/
def dropFrac : Str → Option Str
  | '.' :: r =>
    let ds := r.takeWhile Char.isDigit
    if ds.length = 3 ∨ ds.length = 6 then some (r.dropWhile Char.isDigit) else none
  | r => some r

/-- Parse the time-of-day portion `HH[:MM[:SS[.frac]]][tz]` of an
isoformat string. -/
def parseTimePart (t : Str) : Option (Nat × Nat × Nat) :=
  let ts := (splitTzStr t).1
  if tzOk (splitTzStr t).2 then
    match ts with
    | [h1, h2] =>
      if h1.isDigit && h2.isDigit && decide (toDigit h1 * 10 + toDigit h2 < 24) then
        some (toDigit h1 * 10 + toDigit h2, 0, 0)
      else none
    | [h1, h2, ':', m1, m2] =>
      if h1.isDigit && h2.isDigit && m1.isDigit && m2.isDigit &&
         decide (toDigit h1 * 10 + toDigit h2 < 24) &&
         decide (toDigit m1 * 10 + toDigit m2 < 60) then
        some (toDigit h1 * 10 + toDigit h2, toDigit m1 * 10 + toDigit m2, 0)
      else none
    | h1 :: h2 :: ':' :: m1 :: m2 :: ':' :: s1 :: s2 :: rest =>
      if h1.isDigit && h2.isDigit && m1.isDigit && m2.isDigit && s1.isDigit && s2.isDigit &&
         decide (toDigit h1 * 10 + toDigit h2 < 24) &&
         decide (toDigit m1 * 10 + toDigit m2 < 60) &&
         decide (toDigit s1 * 10 + toDigit s2 < 60) then
        match dropFrac rest with
        | some [] => some (toDigit h1 * 10 + toDigit h2, toDigit m1 * 10 + toDigit m2,
                           toDigit s1 * 10 + toDigit s2)
        | _ => none
      else none
    | _ => none
  else none

/-- Model of `datetime.fromisoformat` (pre-3.11 grammar, whole seconds):
`YYYY-MM-DD`, optionally a single separator character and a time-of-day
with optional fraction and timezone.  `none` models `ValueError`. -/
def pyFromIsoformat (s : Str) : Option PyDateTime :=
  match s with
  | y1 :: y2 :: y3 :: y4 :: '-' :: mo1 :: mo2 :: '-' :: d1 :: d2 :: rest =>
    if y1.isDigit && y2.isDigit && y3.isDigit && y4.isDigit &&
       mo1.isDigit && mo2.isDigit && d1.isDigit && d2.isDigit then
      let y := toDigit y1 * 1000 + toDigit y2 * 100 + toDigit y3 * 10 + toDigit y4
      let mo := toDigit mo1 * 10 + toDigit mo2
      let dd := toDigit d1 * 10 + toDigit d2
      if 1 ≤ y ∧ 1 ≤ mo ∧ mo ≤ 12 ∧ 1 ≤ dd ∧ dd ≤ daysInMonth y mo then
        match rest with
        | [] => some ⟨y, mo, dd, 0, 0, 0⟩
        | _ :: t =>
          match parseTimePart t with
          | some (hh, mi, ss) => some ⟨y, mo, dd, hh, mi, ss⟩
          | none => none
      else none
    else none
  | _ => none

/-- Two-digit zero-padded rendering, as `strftime` `%m`/`%d`/`%H`/`%M`/`%S`
produce for their in-range values. -/
def twoDig (n : Nat) : Str := [Nat.digitChar (n / 10 % 10), Nat.digitChar (n % 10)]

/-- Four-digit zero-padded rendering, as `strftime` `%Y` produces for years
up to 9999. -/
def fourDig (n : Nat) : Str :=
  [Nat.digitChar (n / 1000 % 10), Nat.digitChar (n / 100 % 10),
   Nat.digitChar (n / 10 % 10), Nat.digitChar (n % 10)]

/-- Model of `strftime('%Y-%m-%dT%H:%M:%SZ')`. -/
def formatDT (d : PyDateTime) : Str :=
  fourDig d.year ++ '-' :: twoDig d.month ++ '-' :: twoDig d.day ++
  'T' :: twoDig d.hour ++ ':' :: twoDig d.minute ++ ':' :: twoDig d.second ++ ['Z']

/-- Embedding of the `published_after` buffering (lines 354-363): when the
value is truthy and `buffer_days > 0`, parse (after the `Z` replacement),
subtract the buffer, and reformat; a parse failure is caught
(`except ValueError`), warns, and leaves the value unchanged; an
`OverflowError` from the subtraction is not caught (`Except.error`).
The Bool records whether the warning was printed. -/
def applyBufferAfter (publishedAfter : Option Str) (bufferDays : Nat) :
    Except Unit (Option Str × Bool) :=
  match publishedAfter with
  | none => Except.ok (none, false)
  | some s =>
    if s ≠ [] ∧ bufferDays > 0 then
      match pyFromIsoformat (replaceZ s) with
      | none => Except.ok (some s, true)
      | some d =>
        match shiftBackDays bufferDays d with
        | none => Except.error ()
        | some d2 => Except.ok (some (formatDT d2), false)
    else Except.ok (some s, false)

/-- Embedding of the `published_before` buffering (lines 365-374), adding
the buffer instead of subtracting it. -/
def applyBufferBefore (publishedBefore : Option Str) (bufferDays : Nat) :
    Except Unit (Option Str × Bool) :=
  match publishedBefore with
  | none => Except.ok (none, false)
  | some s =>
    if s ≠ [] ∧ bufferDays > 0 then
      match pyFromIsoformat (replaceZ s) with
      | none => Except.ok (some s, true)
      | some d =>
        match shiftFwdDays bufferDays d with
        | none => Except.error ()
        | some d2 => Except.ok (some (formatDT d2), false)
    else Except.ok (some s, false)

/-- The date arguments `scrape_channel` passes on to `get_all_video_ids`
(line 381) after buffering, with the or of the two warning flags; an
uncaught `OverflowError` aborts `scrape_channel`. -/
def scrapeDateArgs (pa pb : Option Str) (bufferDays : Nat) :
    Except Unit ((Option Str × Option Str) × Bool) :=
  match applyBufferAfter pa bufferDays with
  | Except.error e => Except.error e
  | Except.ok (a, w1) =>
    match applyBufferBefore pb bufferDays with
    | Except.error e => Except.error e
    | Except.ok (b, w2) => Except.ok ((a, b), w1 || w2)

/-! ## Output filename date-range label: `main` lines 586-596 -/

/-- Python truthiness of an optional string (`None` and `""` are falsy). -/
def pyTruthy (o : Option Str) : Bool :=
  match o with
  | none => false
  | some s => s ≠ []

/-- Embedding of the `date_range` computation in `main` (lines 586-596):
with both bounds truthy, compare the first four characters (the years);
otherwise the label is `all_dates`. -/
def dateRangeLabel (pa pb : Option Str) : Str :=
  if pyTruthy pa && pyTruthy pb then
    let startYear := if pyTruthy pa then (pa.getD []).take 4 else "all".data
    let endYear := if pyTruthy pb then (pb.getD []).take 4 else "all".data
    if startYear = endYear then startYear else startYear ++ '-' :: endYear
  else "all_dates".data

/-! ## Lemmas about the duration codec -/

theorem splitOnChar_ne_nil (c : Char) (l : Str) : splitOnChar c l ≠ [] := by
  cases l with
  | nil => simp [splitOnChar]
  | cons x xs =>
    unfold splitOnChar
    split
    · simp
    · split <;> simp

theorem splitOnChar_not_mem (c : Char) (a : Str) (h : c ∉ a) : splitOnChar c a = [a] := by
  induction a with
  | nil => rfl
  | cons x xs ih =>
    have hx : x ≠ c := fun hxc => h (by simp [hxc])
    have hxs : c ∉ xs := fun hm => h (by simp [hm])
    simp only [splitOnChar, ih hxs]
    simp [hx]

theorem splitOnChar_append (c : Char) (a b : Str) (h : c ∉ a) :
    splitOnChar c (a ++ c :: b) = a :: splitOnChar c b := by
  induction a with
  | nil =>
    simp only [List.nil_append, splitOnChar]
    cases hb : splitOnChar c b with
    | nil => exact absurd hb (splitOnChar_ne_nil c b)
    | cons y ys => simp
  | cons x xs ih =>
    have hx : x ≠ c := fun hxc => h (by simp [hxc])
    have hxs : c ∉ xs := fun hm => h (by simp [hm])
    simp only [List.cons_append, splitOnChar, List.append_eq]
    rw [ih hxs]
    simp [hx]

theorem not_mem_of_all_digit {l : Str} {c : Char} (hl : l.all Char.isDigit = true)
    (hc : c.isDigit = false) : c ∉ l := by
  intro hm
  have h2 := List.all_eq_true.mp hl c hm
  rw [h2] at hc
  exact Bool.noConfusion hc

theorem parseComp_absent (c : Char) (d : Str) (h : c ∉ d) : parseComp c d = some (0, d) := by
  simp [parseComp, h]

theorem parseComp_found (c : Char) (a b : Str) (ha : c ∉ a) (hb : c ∉ b)
    (hne : a ≠ []) (hdig : a.all Char.isDigit = true) :
    parseComp c (a ++ c :: b) = some (digitsVal a, b) := by
  have hmem : c ∈ a ++ c :: b := by simp
  simp [parseComp, hmem, splitOnChar_append c a b ha, splitOnChar_not_mem c b hb,
    pyInt, hne, hdig]

theorem not_mem_optComp {c : Char} {o : Option Str} {m : Char} (ho : compOk o)
    (hcd : c.isDigit = false) (hcm : c ≠ m) : c ∉ optComp o m := by
  cases o with
  | none => simp [optComp]
  | some d =>
    simp only [optComp, List.mem_append, List.mem_singleton]
    rintro (hd | rfl)
    · exact not_mem_of_all_digit ho.2 hcd hd
    · exact hcm rfl

theorem parseComp_opt (c : Char) (o : Option Str) (r : Str) (ho : compOk o)
    (hcd : c.isDigit = false) (hcr : c ∉ r) :
    parseComp c (optComp o c ++ r) = some (compVal o, r) := by
  cases o with
  | none => simpa [optComp, compVal] using parseComp_absent c r hcr
  | some d =>
    have hd : c ∉ d := not_mem_of_all_digit ho.2 hcd
    have : (d ++ [c]) ++ r = d ++ c :: r := by simp
    rw [optComp, this, parseComp_found c d r hd hcr ho.1 ho.2]
    rfl

theorem parseDuration_mkDur (oh om os : Option Str)
    (h1 : compOk oh) (h2 : compOk om) (h3 : compOk os) :
    parseDuration (mkDur oh om os) =
      some (formatClock (compVal oh) (compVal om) (compVal os)) := by
  have hH : ('H' : Char).isDigit = false := by decide
  have hM : ('M' : Char).isDigit = false := by decide
  have hS : ('S' : Char).isDigit = false := by decide
  have hHrest : 'H' ∉ optComp om 'M' ++ optComp os 'S' := by
    simp only [List.mem_append]
    rintro (h | h)
    · exact not_mem_optComp h2 hH (by decide) h
    · exact not_mem_optComp h3 hH (by decide) h
  have hMrest : 'M' ∉ optComp os 'S' := not_mem_optComp h3 hM (by decide)
  have hSnil : 'S' ∉ ([] : Str) := by simp
  have hstep3 : parseComp 'S' (optComp os 'S') = some (compVal os, []) := by
    have := parseComp_opt 'S' os [] h3 hS hSnil
    simpa using this
  simp only [mkDur, parseDuration, List.drop_succ_cons, List.drop_zero,
    reduceCtorEq, if_false,
    parseComp_opt 'H' oh (optComp om 'M' ++ optComp os 'S') h1 hH hHrest]
  simp only [parseComp_opt 'M' om (optComp os 'S') h2 hM hMrest]
  simp only [hstep3]

/-- C4: for every well-formed compact duration string (optional hour,
minute, second components, each a decimal digit string terminated by its
marker), `_parse_duration` succeeds and renders the parsed component values
through the source's clock formatting (`H:MM:SS` with 2-digit-padded
minutes and seconds when hours > 0, else `M:SS` with unpadded minutes);
in particular the four example decodings of the specification hold. -/
theorem c4_duration_wellformed :
    (∀ oh om os : Option Str, compOk oh → compOk om → compOk os →
      parseDuration (mkDur oh om os) =
        some (formatClock (compVal oh) (compVal om) (compVal os))) ∧
    parseDuration "PT4M13S".data = some "4:13".data ∧
    parseDuration "PT1H2M3S".data = some "1:02:03".data ∧
    parseDuration "PT45S".data = some "0:45".data ∧
    parseDuration "".data = some "0:00".data :=
  ⟨fun oh om os h1 h2 h3 => parseDuration_mkDur oh om os h1 h2 h3,
   by decide, by decide, by decide, by decide⟩

/-- Witness for C4: the general statement applied to the concrete
well-formed input `PT7H5M` (hours 7, minutes 5, seconds absent). -/
theorem c4_duration_wellformed_witness :
    parseDuration (mkDur (some ['7']) (some ['5']) none) =
      some (formatClock (compVal (some ['7'])) (compVal (some ['5'])) (compVal none)) :=
  c4_duration_wellformed.1 (some ['7']) (some ['5']) none (by decide) (by decide) (by decide)

/-- Counterexample for C5: `_parse_duration` does have an error path: on
input `PTxS` the seconds component `x` makes `int('x')` raise `ValueError`
(modelled as `none`), so the function does not return normally on every
input string. -/
theorem c5_counterexample : parseDuration "PTxS".data = none := by decide

/-- C5 (amended): for every input string that omits all three marker
characters, `_parse_duration` returns normally with the all-zero output
`0:00`; an input containing a marker whose preceding component is not a
decimal numeral instead raises `ValueError` (see the counterexample). -/
theorem c5_amended_no_marker (l : Str) (hH : 'H' ∉ l) (hM : 'M' ∉ l) (hS : 'S' ∉ l) :
    parseDuration l = some "0:00".data := by
  by_cases hnil : l = []
  · subst hnil; decide
  · have hH2 : 'H' ∉ l.drop 2 := fun hm => hH (List.mem_of_mem_drop hm)
    have hM2 : 'M' ∉ l.drop 2 := fun hm => hM (List.mem_of_mem_drop hm)
    have hS2 : 'S' ∉ l.drop 2 := fun hm => hS (List.mem_of_mem_drop hm)
    simp only [parseDuration, hnil, if_false, parseComp_absent 'H' _ hH2]
    simp only [parseComp_absent 'M' _ hM2]
    simp only [parseComp_absent 'S' _ hS2]
    decide

/-- Witness for C5 (amended): a concrete marker-free input. -/
theorem c5_amended_no_marker_witness : parseDuration "hello".data = some "0:00".data :=
  c5_amended_no_marker "hello".data (by decide) (by decide) (by decide)

/-- C10: `_parse_duration` does not renormalize overflowing components.
Over every well-formed input (all eight optional-component combinations)
the output is the source's clock formatting applied to the raw parsed
hour, minute and second values, with no carrying between fields; a value
of 10 or more is rendered by the zero-pad formatter verbatim; hence in any
hour/minute context a seconds component of 60 or more appears verbatim
after the final colon, and likewise a minutes component of 60 or more
appears verbatim; in particular `PT90S` decodes to `0:90`, `PT1M90S` to
`1:90`, `PT75M` to `75:00`, and `PT1H75M` to `1:75:00`. -/
theorem c10_no_renormalization :
    (∀ oh om os : Option Str, compOk oh → compOk om → compOk os →
      parseDuration (mkDur oh om os) =
        some (formatClock (compVal oh) (compVal om) (compVal os))) ∧
    (∀ n : Nat, 10 ≤ n → pad2 n = natDigits n) ∧
    (∀ (oh om : Option Str) (sd : Str), compOk oh → compOk om →
      sd ≠ [] → sd.all Char.isDigit = true → 60 ≤ digitsVal sd →
      ∃ pre, parseDuration (mkDur oh om (some sd)) =
        some (pre ++ ':' :: natDigits (digitsVal sd))) ∧
    (∀ (oh : Option Str) (md : Str) (os : Option Str), compOk oh → compOk os →
      md ≠ [] → md.all Char.isDigit = true → 60 ≤ digitsVal md →
      ∃ pre post, parseDuration (mkDur oh (some md) os) =
        some (pre ++ natDigits (digitsVal md) ++ post)) ∧
    parseDuration "PT90S".data = some "0:90".data ∧
    parseDuration "PT1M90S".data = some "1:90".data ∧
    parseDuration "PT75M".data = some "75:00".data ∧
    parseDuration "PT1H75M".data = some "1:75:00".data := by
  have hpad : ∀ n : Nat, 10 ≤ n → pad2 n = natDigits n := by
    intro n hn
    unfold pad2
    rw [if_neg (by omega)]
  refine ⟨parseDuration_mkDur, hpad, ?_, ?_, by decide, by decide, by decide, by decide⟩
  · intro oh om sd h1 h2 hne hdig h60
    have hpd := parseDuration_mkDur oh om (some sd) h1 h2 ⟨hne, hdig⟩
    have hps : pad2 (digitsVal sd) = natDigits (digitsVal sd) := hpad _ (by omega)
    have hcs : compVal (some sd) = digitsVal sd := rfl
    by_cases hA : compVal oh > 0
    · refine ⟨natDigits (compVal oh) ++ ':' :: pad2 (compVal om), ?_⟩
      rw [hpd, hcs]
      simp only [formatClock]
      rw [if_pos hA, hps]
    · refine ⟨natDigits (compVal om), ?_⟩
      rw [hpd, hcs]
      simp only [formatClock]
      rw [if_neg hA, hps]
  · intro oh md os h1 h3 hne hdig h60
    have hpd := parseDuration_mkDur oh (some md) os h1 ⟨hne, hdig⟩ h3
    have hpm : pad2 (digitsVal md) = natDigits (digitsVal md) := hpad _ (by omega)
    have hcm : compVal (some md) = digitsVal md := rfl
    by_cases hA : compVal oh > 0
    · refine ⟨natDigits (compVal oh) ++ [':'], ':' :: pad2 (compVal os), ?_⟩
      rw [hpd, hcm]
      simp only [formatClock]
      rw [if_pos hA, hpm]
      simp [List.append_assoc]
    · refine ⟨[], ':' :: pad2 (compVal os), ?_⟩
      rw [hpd, hcm]
      simp only [formatClock]
      rw [if_neg hA]
      simp

/-- Witness for C10: the seconds-of-60-or-more clause applied to the mixed
input `PT1H2M90S`. -/
theorem c10_no_renormalization_witness :
    ∃ pre, parseDuration (mkDur (some ['1']) (some ['2']) (some ['9', '0'])) =
      some (pre ++ ':' :: natDigits (digitsVal ['9', '0'])) :=
  c10_no_renormalization.2.2.1 (some ['1']) (some ['2']) ['9', '0']
    (by decide) (by decide) (by decide) (by decide) (by decide)

/-! ## Lemmas about `_parse_video_data` -/

theorem parseVideoData_url {v : RawVideo} {rec : VideoMetadata}
    (h : parseVideoData v = some rec) :
    rec.url = urlStem ++ rec.video_id := by
  unfold parseVideoData at h
  cases hd : parseDuration (v.duration.getD []) with
  | none => rw [hd] at h; exact Option.noConfusion h
  | some dur =>
    rw [hd] at h
    cases hvc : pyIntStat v.viewCount with
    | none => rw [hvc] at h; exact Option.noConfusion h
    | some vc =>
      cases hlc : pyIntStat v.likeCount with
      | none => rw [hvc, hlc] at h; exact Option.noConfusion h
      | some lc =>
        cases hcc : pyIntStat v.commentCount with
        | none => rw [hvc, hlc, hcc] at h; exact Option.noConfusion h
        | some cc =>
          rw [hvc, hlc, hcc] at h
          simp only [Option.some.injEq] at h
          rw [← h]

/-- C9: every record produced by `_parse_video_data` has
`url = "https://www.youtube.com/watch?v=" ++ video_id`, so the url is
injectively determined by the id: two parsed records with the same url have
the same video id. -/
theorem c9_url_determined_by_id :
    ∀ (v : RawVideo) (rec : VideoMetadata), parseVideoData v = some rec →
      rec.url = urlStem ++ rec.video_id ∧
      ∀ (v2 : RawVideo) (rec2 : VideoMetadata), parseVideoData v2 = some rec2 →
        rec.url = rec2.url → rec.video_id = rec2.video_id := by
  intro v rec h
  refine ⟨parseVideoData_url h, ?_⟩
  intro v2 rec2 h2 hurl
  have e1 := parseVideoData_url h
  have e2 := parseVideoData_url h2
  rw [e1, e2] at hurl
  exact List.append_cancel_left hurl

/-- Witness for C9: the url law evaluated on a concrete parsed item. -/
theorem c9_url_determined_by_id_witness :
    (mkOkRec ['a']).url = urlStem ++ (mkOkRec ['a']).video_id :=
  (c9_url_determined_by_id (mkOkItem ['a']) (mkOkRec ['a']) (by decide)).1

/-! ## Rate-limit retry lemmas (claim C1) -/

theorem listLoop_retry403 (maxV : Option Nat) (acc : List Str) (k : Nat)
    (rest : List ListOutcome) :
    listLoop maxV acc (List.replicate k (ListOutcome.httpErr 403) ++ rest) =
      listLoop maxV acc rest := by
  induction k with
  | zero => rfl
  | succ n ih => simpa [List.replicate_succ, listLoop] using ih

/-- Counterexample for C1: in `get_video_metadata` a 403 does drop the
batch.  With a single requested batch, a first-call 403 followed by an
available well-formed response yields zero records after exactly one call:
the `continue` in the 403 arm advanced the `for` loop past the batch
instead of retrying it, so the successful response was never requested. -/
theorem c1_counterexample :
    getVideoMetadata [['a']]
        [MetaOutcome.httpErr 403, MetaOutcome.ok [mkOkItem ['a']]] =
      some (MetaResult.ok [] 1) := by decide

/-- C1 (amended): in the listing loop of `get_all_video_ids`, every 403 is
followed by the cooldown and an indefinite retry of the same call — any
finite burst of 403 responses before a call leaves the result identical to
the run without them, so a rate-limit error is never surfaced and no page
is dropped — and a non-403 `HttpError` is not retried (it raises at once).
In the batch loop of `get_video_metadata`, however, no call is ever
retried: every `HttpError`, 403 included, makes the loop skip the current
batch and move to the next one, so a rate-limited batch is dropped from
the result after the sleep, exactly like a batch failing with any other
status. -/
theorem c1_rate_limit_retry_amended :
    (∀ (maxV : Option Nat) (acc : List Str) (k : Nat) (rest : List ListOutcome),
      listLoop maxV acc (List.replicate k (ListOutcome.httpErr 403) ++ rest) =
        listLoop maxV acc rest) ∧
    (∀ (maxV : Option Nat) (acc : List Str) (s : Nat) (rest : List ListOutcome), s ≠ 403 →
      listLoop maxV acc (ListOutcome.httpErr s :: rest) = some (ListResult.fatal s)) ∧
    (∀ (s : Nat) (tape : List MetaOutcome) (b : List Str) (bs : List (List Str))
      (calls : Nat) (acc : List VideoMetadata),
      metaLoop (MetaOutcome.httpErr s :: tape) (b :: bs) calls acc =
        metaLoop tape bs (calls + 1) acc) := by
  refine ⟨listLoop_retry403, ?_, ?_⟩
  · intro maxV acc s rest hs
    simp [listLoop, hs]
  · intro s tape b bs calls acc
    by_cases hs : s = 403 <;> simp [metaLoop, hs]

/-- Witness for C1 (amended): a non-403 error in the listing loop is fatal
at once. -/
theorem c1_rate_limit_retry_amended_witness :
    listLoop none [] (ListOutcome.httpErr 500 :: []) = some (ListResult.fatal 500) :=
  c1_rate_limit_retry_amended.2.1 none [] 500 [] (by decide)

/-! ## Pagination lemmas (claim C3) -/

theorem collectItems_nocap (acc : List Str) (items : List Str) :
    collectItems none acc items = acc ++ items := by
  induction items generalizing acc with
  | nil => simp [collectItems]
  | cons x xs ih =>
    simp only [collectItems, reachedMax, Bool.false_eq_true, if_false, ih]
    simp

theorem collectItems_small (m : Nat) (items : List Str) (hm : m ≠ 0) :
    ∀ acc : List Str, acc.length + items.length ≤ m →
      collectItems (some m) acc items = acc ++ items := by
  induction items with
  | nil => intro acc _; simp [collectItems]
  | cons x xs ih =>
    intro acc h
    simp only [collectItems]
    by_cases hr : reachedMax (some m) (acc ++ [x]).length = true
    · have hge : m ≤ acc.length + 1 := by
        simp only [reachedMax, hm, if_false, List.length_append, List.length_singleton,
          decide_eq_true_eq] at hr
        omega
      have hxs : xs = [] := by
        have hlen : acc.length + (xs.length + 1) ≤ m := by simpa using h
        have : xs.length = 0 := by omega
        exact List.length_eq_zero.mp this
      subst hxs
      simp [collectItems]
    · rw [if_neg hr, ih (acc ++ [x]) (by simp at h ⊢; omega)]
      simp

theorem collectItems_reach (m : Nat) (items : List Str) (hm : m ≠ 0) :
    ∀ acc : List Str, acc.length < m → m ≤ acc.length + items.length →
      collectItems (some m) acc items = (acc ++ items).take m := by
  induction items with
  | nil => intro acc hlt hge; simp at hge; omega
  | cons x xs ih =>
    intro acc hlt hge
    simp only [collectItems]
    by_cases hr : reachedMax (some m) (acc ++ [x]).length = true
    · have hge1 : m ≤ acc.length + 1 := by
        simp only [reachedMax, hm, if_false, List.length_append, List.length_singleton,
          decide_eq_true_eq] at hr
        omega
      have hmeq : m = acc.length + 1 := by omega
      rw [if_pos hr]
      have hsplit : acc ++ x :: xs = (acc ++ [x]) ++ xs := by simp
      have hl : (acc ++ [x]).length = acc.length + 1 := by simp
      rw [hsplit, hmeq, ← hl]
      exact (List.take_left _ _).symm
    · have hr2 : ¬ m ≤ acc.length + 1 := by simpa [reachedMax, hm] using hr
      have hlt2 : (acc ++ [x]).length < m := by simp; omega
      rw [if_neg hr, ih (acc ++ [x]) hlt2 (by simp at hge ⊢; omega)]
      congr 1
      simp


theorem listLoop_unbounded (pages : List (List Str)) (hne : pages ≠ []) :
    ∀ acc : List Str,
      listLoop none acc (mkListTape pages) = some (ListResult.ok (acc ++ pages.flatten)) := by
  induction pages with
  | nil => exact absurd rfl hne
  | cons p ps ih =>
    intro acc
    cases ps with
    | nil =>
      simp only [mkListTape, listLoop, collectItems_nocap]
      simp [reachedMax]
    | cons q qs =>
      simp only [mkListTape, listLoop, collectItems_nocap]
      rw [show reachedMax none (acc ++ p).length = false from rfl]
      simp only [Bool.false_eq_true, if_false]
      rw [ih (by simp) (acc ++ p)]
      simp

theorem listLoop_bounded (k : Nat) (hk : k ≠ 0) :
    ∀ (pages : List (List Str)) (acc : List Str), acc.length < k →
      k ≤ acc.length + pages.flatten.length →
      listLoop (some k) acc (mkListTape pages) =
        some (ListResult.ok ((acc ++ pages.flatten).take k)) := by
  intro pages
  induction pages with
  | nil => intro acc hlt hge; simp at hge; omega
  | cons p ps ih =>
    intro acc hlt hge
    by_cases hcase : k ≤ acc.length + p.length
    · have hacc2 : collectItems (some k) acc p = (acc ++ p).take k :=
        collectItems_reach k p hk acc hlt (by simpa using hcase)
    
      have hlen : ((acc ++ p).take k).length = k := by simp; omega
      have hreach : reachedMax (some k) ((acc ++ p).take k).length = true := by
        simp [reachedMax, hk, hlen]
      have hrhs : (acc ++ (p :: ps).flatten).take k = (acc ++ p).take k := by
        rw [List.flatten_cons, show acc ++ (p ++ ps.flatten) = (acc ++ p) ++ ps.flatten by simp,
          List.take_append_of_le_length (by simp; omega)]
      cases ps with
      | nil =>
        simp only [mkListTape, listLoop, hacc2, hreach, if_true, truncateTo]
        rw [hrhs, List.take_take, Nat.min_self]
      | cons q qs =>
        simp only [mkListTape, listLoop, hacc2, hreach, if_true, truncateTo]
        rw [hrhs, List.take_take, Nat.min_self]
    · have hclt : acc.length + p.length < k := by omega
      have hacc2 : collectItems (some k) acc p = acc ++ p :=
        collectItems_small k p hk acc (by omega)
      have hnreach : reachedMax (some k) (acc ++ p).length = false := by
        simp only [reachedMax, hk, if_false]
        simp only [List.length_append, decide_eq_false_iff_not]
        omega
      cases ps with
      | nil =>
        exfalso
        simp at hge
        omega
      | cons q qs =>
        simp only [mkListTape, listLoop, hacc2, hnreach, Bool.false_eq_true, if_false]
        rw [ih (acc ++ p) (by simp; omega) (by simp at hge ⊢; omega)]
        simp

theorem listLoop_capped (k : Nat) (junk : List ListOutcome) (hk : k ≠ 0) :
    ∀ (pages : List (List Str)) (acc : List Str), acc.length < k →
      k ≤ acc.length + pages.flatten.length →
      listLoop (some k) acc (mkListTapeT pages ++ junk) =
        some (ListResult.ok ((acc ++ pages.flatten).take k)) := by
  intro pages
  induction pages with
  | nil => intro acc hlt hge; simp at hge; omega
  | cons p ps ih =>
    intro acc hlt hge
    by_cases hcase : k ≤ acc.length + p.length
    · have hacc2 : collectItems (some k) acc p = (acc ++ p).take k :=
        collectItems_reach k p hk acc hlt (by simpa using hcase)
      have hlen : ((acc ++ p).take k).length = k := by simp; omega
      have hreach : reachedMax (some k) ((acc ++ p).take k).length = true := by
        simp [reachedMax, hk, hlen]
      have hrhs : (acc ++ (p :: ps).flatten).take k = (acc ++ p).take k := by
        rw [List.flatten_cons, show acc ++ (p ++ ps.flatten) = (acc ++ p) ++ ps.flatten by simp,
          List.take_append_of_le_length (by simp; omega)]
      simp only [mkListTapeT, List.map_cons, List.cons_append, listLoop, hacc2, hreach,
        if_true, truncateTo]
      rw [hrhs, List.take_take, Nat.min_self]
    · have hclt : acc.length + p.length < k := by omega
      have hacc2 : collectItems (some k) acc p = acc ++ p :=
        collectItems_small k p hk acc (by omega)
      have hnreach : reachedMax (some k) (acc ++ p).length = false := by
        simp only [reachedMax, hk, if_false]
        simp only [List.length_append, decide_eq_false_iff_not]
        omega
      simp only [mkListTapeT, List.map_cons, List.cons_append, listLoop, hacc2, hnreach,
        Bool.false_eq_true, if_false, List.append_eq]
      rw [show (List.map (fun p => ListOutcome.ok ⟨some p, some ['t']⟩) ps : List ListOutcome) =
        mkListTapeT ps from rfl]
      rw [ih (acc ++ p) (by simp; omega) (by simp at hge ⊢; omega)]
      rw [List.flatten_cons, show acc ++ (p ++ ps.flatten) = (acc ++ p) ++ ps.flatten by simp]

/-- C3: over a channel whose listing pages jointly carry N identifiers, a
cap of k with 0 < k < N makes `get_all_video_ids` return exactly the first
k elements of the uncapped run's result; the uncapped run returns all N
identifiers once the last page carries no cursor; and once the accumulated
count reaches k the loop stops without consuming further pages, whatever
they would contain. -/
theorem c3_max_videos_cap :
    ∀ pages : List (List Str), pages ≠ [] →
      (∀ k, 0 < k → k < pages.flatten.length →
        getAllVideoIds (some k) (mkListTape pages) =
          some (ListResult.ok (pages.flatten.take k)) ∧
        (pages.flatten.take k).length = k) ∧
      getAllVideoIds none (mkListTape pages) = some (ListResult.ok pages.flatten) ∧
      (∀ k (junk : List ListOutcome), 0 < k → k ≤ pages.flatten.length →
        listLoop (some k) [] (mkListTapeT pages ++ junk) =
          some (ListResult.ok (pages.flatten.take k))) := by
  intro pages hne
  refine ⟨?_, ?_, ?_⟩
  · intro k hk hklt
    constructor
    · have h := listLoop_bounded k (by omega) pages [] (by simpa using hk)
        (by simp only [List.length_nil, Nat.zero_add]; omega)
      simpa [getAllVideoIds] using h
    · rw [List.length_take]
      omega
  · have h := listLoop_unbounded pages hne []
    simpa [getAllVideoIds] using h
  · intro k junk hk hkle
    have h := listLoop_capped k junk (by omega) pages [] (by simpa using hk)
      (by simp only [List.length_nil, Nat.zero_add]; omega)
    simpa using h

/-- Witness for C3: two pages of ids, capped at 1 and uncapped. -/
theorem c3_max_videos_cap_witness :
    getAllVideoIds (some 1) (mkListTape [[['a'], ['b']], [['c']]]) =
      some (ListResult.ok ([[['a'], ['b']], [['c']]].flatten.take 1)) :=
  ((c3_max_videos_cap [[['a'], ['b']], [['c']]] (by decide)).1 1 (by decide) (by decide)).1

/-! ## Batching lemmas (claim C2) -/

theorem chunkGo_fuel : ∀ (f1 f2 : Nat) (l : List Str), l.length ≤ f1 → l.length ≤ f2 →
    chunkGo f1 l = chunkGo f2 l := by
  intro f1
  induction f1 with
  | zero =>
    intro f2 l h1 _
    have : l = [] := List.length_eq_zero.mp (by omega)
    subst this
    cases f2 <;> rfl
  | succ n ih =>
    intro f2 l h1 h2
    cases l with
    | nil => cases f2 <;> rfl
    | cons x xs =>
      have h1b : xs.length ≤ n := by simpa using h1
      cases f2 with
      | zero => simp at h2
      | succ m =>
        have h2b : xs.length ≤ m := by simpa using h2
        simp only [chunkGo]
        exact congrArg _ (ih m ((x :: xs).drop 50) (by simp; omega) (by simp; omega))

theorem chunk50_cons (x : Str) (xs : List Str) :
    chunk50 (x :: xs) = ((x :: xs).take 50) :: chunk50 ((x :: xs).drop 50) := by
  have h := chunkGo_fuel xs.length ((x :: xs).drop 50).length ((x :: xs).drop 50)
    (by simp) le_rfl
  unfold chunk50
  rw [show (x :: xs).length = xs.length + 1 from rfl]
  rw [show chunkGo (xs.length + 1) (x :: xs) =
    ((x :: xs).take 50) :: chunkGo xs.length ((x :: xs).drop 50) from rfl]
  rw [h]

theorem chunk50_flatten (l : List Str) : (chunk50 l).flatten = l := by
  suffices h : ∀ n (l : List Str), l.length ≤ n → (chunk50 l).flatten = l from
    h l.length l le_rfl
  intro n
  induction n with
  | zero =>
    intro l h
    have : l = [] := List.length_eq_zero.mp (by omega)
    subst this
    rfl
  | succ n ih =>
    intro l h
    cases l with
    | nil => rfl
    | cons x xs =>
      have hx : xs.length ≤ n := by simpa using h
      rw [chunk50_cons, List.flatten_cons, ih ((x :: xs).drop 50) (by simp; omega)]
      exact List.take_append_drop 50 (x :: xs)

theorem chunk50_length (l : List Str) : (chunk50 l).length = (l.length + 49) / 50 := by
  suffices h : ∀ n (l : List Str), l.length ≤ n → (chunk50 l).length = (l.length + 49) / 50 from
    h l.length l le_rfl
  intro n
  induction n with
  | zero =>
    intro l h
    have : l = [] := List.length_eq_zero.mp (by omega)
    subst this
    rfl
  | succ n ih =>
    intro l h
    cases l with
    | nil => rfl
    | cons x xs =>
      have hx : xs.length ≤ n := by simpa using h
      rw [chunk50_cons, List.length_cons, ih ((x :: xs).drop 50) (by simp; omega)]
      simp only [List.length_drop, List.length_cons]
      omega

theorem chunk50_mem_le (l : List Str) : ∀ c ∈ chunk50 l, c.length ≤ 50 := by
  suffices h : ∀ n (l : List Str), l.length ≤ n → ∀ c ∈ chunk50 l, c.length ≤ 50 from
    h l.length l le_rfl
  intro n
  induction n with
  | zero =>
    intro l h
    have : l = [] := List.length_eq_zero.mp (by omega)
    subst this
    intro c hc
    simp [chunk50, chunkGo] at hc
  | succ n ih =>
    intro l h
    cases l with
    | nil => intro c hc; simp [chunk50, chunkGo] at hc
    | cons x xs =>
      have hx : xs.length ≤ n := by simpa using h
      intro c hc
      rw [chunk50_cons] at hc
      rcases List.mem_cons.mp hc with rfl | hc2
      · simp
      · exact ih ((x :: xs).drop 50) (by simp; omega) c hc2

theorem mapM_mkOkItem : ∀ b : List Str,
    (b.map mkOkItem).mapM parseVideoData = some (b.map mkOkRec) := by
  intro b
  induction b with
  | nil => rfl
  | cons x xs ih =>
    rw [List.map_cons, List.map_cons, List.mapM_cons]
    rw [show parseVideoData (mkOkItem x) = some (mkOkRec x) from rfl, ih]
    rfl

theorem metaLoop_allOk : ∀ (bs : List (List Str)) (calls : Nat) (acc : List VideoMetadata),
    metaLoop (mkMetaTapeOk bs) bs calls acc =
      some (MetaResult.ok (acc ++ bs.flatten.map mkOkRec) (calls + bs.length)) := by
  intro bs
  induction bs with
  | nil => intro calls acc; simp [mkMetaTapeOk, metaLoop]
  | cons b bs ih =>
    intro calls acc
    simp only [mkMetaTapeOk, List.map_cons, metaLoop, mapM_mkOkItem]
    rw [show (List.map (fun b => MetaOutcome.ok (b.map mkOkItem)) bs : List MetaOutcome) =
      mkMetaTapeOk bs from rfl]
    rw [ih (calls + 1) (acc ++ b.map mkOkRec)]
    simp only [List.flatten_cons, List.map_append, List.append_assoc, List.length_cons]
    congr 2
    omega

theorem metaLoop_oneFail (s : Nat) (hs : s ≠ 403) :
    ∀ (bs : List (List Str)) (j : Nat) (calls : Nat) (acc : List VideoMetadata),
      j < bs.length →
      metaLoop (mkMetaTape bs j s) bs calls acc =
        some (MetaResult.ok
          (acc ++ ((bs.take j ++ bs.drop (j + 1)).flatten.map mkOkRec))
          (calls + bs.length)) := by
  intro bs
  induction bs with
  | nil => intro j calls acc hj; simp at hj
  | cons b bs ih =>
    intro j calls acc hj
    cases j with
    | zero =>
      simp only [mkMetaTape, metaLoop, hs, if_false]
      rw [metaLoop_allOk bs (calls + 1) acc]
      simp only [List.take_zero, List.nil_append, List.drop_succ_cons, List.drop_zero,
        List.length_cons]
      congr 2
      omega
    | succ j2 =>
      simp only [mkMetaTape, metaLoop, mapM_mkOkItem]
      rw [ih j2 (calls + 1) (acc ++ b.map mkOkRec) (by simpa using hj)]
      simp only [List.take_succ_cons, List.drop_succ_cons, List.cons_append,
        List.flatten_cons, List.map_append, List.append_assoc, List.length_cons]
      congr 2
      omega

/-- C2: `get_video_metadata` partitions its B input ids into exactly
M = ceil(B/50) contiguous groups of at most 50 whose concatenation is the
input, and issues exactly M fetch calls — both when every batch succeeds
(returning one record per id, B records in total) and when exactly one
batch fails with a non-403 error, in which case that batch is skipped,
processing continues, and exactly B minus the failed group's size records
are returned. -/
theorem c2_batch_partition :
    ∀ ids : List Str,
      ((chunk50 ids).length = (ids.length + 49) / 50 ∧
        (chunk50 ids).flatten = ids ∧
        ∀ c ∈ chunk50 ids, c.length ≤ 50) ∧
      (∃ recs, getVideoMetadata ids (mkMetaTapeOk (chunk50 ids)) =
          some (MetaResult.ok recs ((ids.length + 49) / 50)) ∧
        recs.length = ids.length) ∧
      (∀ j s, s ≠ 403 → j < (chunk50 ids).length →
        ∃ recs, getVideoMetadata ids (mkMetaTape (chunk50 ids) j s) =
            some (MetaResult.ok recs ((ids.length + 49) / 50)) ∧
          recs.length = ids.length - ((chunk50 ids).getD j []).length) := by
  intro ids
  refine ⟨⟨chunk50_length ids, chunk50_flatten ids, chunk50_mem_le ids⟩, ?_, ?_⟩
  · refine ⟨(chunk50 ids).flatten.map mkOkRec, ?_, ?_⟩
    · have h := metaLoop_allOk (chunk50 ids) 0 []
      rw [getVideoMetadata, h]
      rw [List.nil_append, Nat.zero_add, chunk50_length ids]
    · rw [List.length_map, chunk50_flatten ids]
  · intro j s hs hj
    refine ⟨((chunk50 ids).take j ++ (chunk50 ids).drop (j + 1)).flatten.map mkOkRec, ?_, ?_⟩
    · have h := metaLoop_oneFail s hs (chunk50 ids) j 0 [] hj
      rw [getVideoMetadata, h]
      rw [List.nil_append, Nat.zero_add, chunk50_length ids]
    · have hdrop : (chunk50 ids).drop j =
          (chunk50 ids).getD j [] :: (chunk50 ids).drop (j + 1) := by
        rw [List.getD_eq_getElem _ _ hj]
        exact List.drop_eq_getElem_cons hj
      have hsum : ((chunk50 ids).take j).flatten.length +
          ((chunk50 ids).getD j []).length + ((chunk50 ids).drop (j + 1)).flatten.length =
          ids.length := by
        have hid : (chunk50 ids).flatten = ids := chunk50_flatten ids
        have hta : chunk50 ids = (chunk50 ids).take j ++ (chunk50 ids).drop j :=
          (List.take_append_drop j (chunk50 ids)).symm
        rw [hdrop] at hta
        calc ((chunk50 ids).take j).flatten.length +
              ((chunk50 ids).getD j []).length + ((chunk50 ids).drop (j + 1)).flatten.length
            = (((chunk50 ids).take j ++ ((chunk50 ids).getD j [] ::
                (chunk50 ids).drop (j + 1))).flatten).length := by
              simp [List.flatten_append]
              omega
          _ = ids.length := by rw [← hta, hid]
      rw [List.length_map, List.flatten_append, List.length_append]
      omega

/-- Witness for C2: two ids form one batch; its non-403 failure yields zero
records and one call. -/
theorem c2_batch_partition_witness :
    ∃ recs, getVideoMetadata [['a'], ['b']] (mkMetaTape (chunk50 [['a'], ['b']]) 0 500) =
        some (MetaResult.ok recs ((([['a'], ['b']] : List Str).length + 49) / 50)) ∧
      recs.length = ([['a'], ['b']] : List Str).length -
        ((chunk50 [['a'], ['b']]).getD 0 []).length :=
  (c2_batch_partition [['a'], ['b']]).2.2 0 500 (by decide) (by decide)

/-- C6: an identifier with the `UC` channel-id marker whose direct ID
lookup finds an item is returned unchanged, with no username lookup
attempted (the call trace is exactly the one ID lookup); an identifier
without the marker goes straight to the username lookup, and when that
lookup yields no items the function raises the channel-not-found
`ValueError` instead of returning a value. -/
theorem c6_channel_resolution :
    (∀ (env : ChanEnv) (ident : Str) (items : List ChanItem),
      "UC".data.isPrefixOf ident = true → env.byId ident = Except.ok items → items ≠ [] →
      getChannelId env ident = (ChanResult.ok ident, [ChanCall.byId])) ∧
    (∀ (env : ChanEnv) (ident : Str), "UC".data.isPrefixOf ident = false →
      (getChannelId env ident).2 = [ChanCall.byUsername] ∧
      (env.byUsername ident = Except.ok [] →
        getChannelId env ident = (ChanResult.notFound ident, [ChanCall.byUsername]))) := by
  constructor
  · intro env ident items hpre hid hne
    simp [getChannelId, hpre, hid, hne]
  · intro env ident hpre
    constructor
    · cases hu : env.byUsername ident with
      | error s => simp [getChannelId, hpre, hu]
      | ok items2 =>
        by_cases h2 : items2 = []
        · subst h2; simp [getChannelId, hpre, hu]
        · simp [getChannelId, hpre, hu, h2]
    · intro hu
      simp [getChannelId, hpre, hu]

/-- Witness for C6: both clauses at a concrete environment. -/
theorem c6_channel_resolution_witness :
    getChannelId
        ⟨fun _ => Except.ok [⟨"UCx".data⟩], fun _ => Except.ok []⟩ "UCabc".data =
      (ChanResult.ok "UCabc".data, [ChanCall.byId]) :=
  c6_channel_resolution.1
    ⟨fun _ => Except.ok [⟨"UCx".data⟩], fun _ => Except.ok []⟩ "UCabc".data
    [⟨"UCx".data⟩] (by decide) rfl (by decide)

/-- Counterexample for C8: with only `publishedAfter` set (a one-sided
window), `main` labels the files `all_dates`, contradicting the claim that
only an unbounded window gets that label. -/
theorem c8_counterexample :
    dateRangeLabel (some "2022-01-01T00:00:00Z".data) none = "all_dates".data := by decide

/-- C8 (amended): the filename label is `all_dates` exactly when NOT both
bounds are truthy — so a one-sided window is also labelled `all_dates` —
and for every both-bounded window the label is the shared first-four-
character year when the two years agree, or `startYear-endYear` when they
differ. -/
theorem c8_amended_label :
    (∀ pa pb : Option Str,
      (dateRangeLabel pa pb = "all_dates".data ↔
        ¬(pyTruthy pa = true ∧ pyTruthy pb = true))) ∧
    (∀ pa pb : Option Str, pyTruthy pa = true → pyTruthy pb = true →
      ((pa.getD []).take 4 = (pb.getD []).take 4 →
        dateRangeLabel pa pb = (pa.getD []).take 4) ∧
      ((pa.getD []).take 4 ≠ (pb.getD []).take 4 →
        dateRangeLabel pa pb = (pa.getD []).take 4 ++ '-' :: (pb.getD []).take 4)) ∧
    dateRangeLabel (some "2021-02-01".data) (some "2022-03-01".data) = "2021-2022".data ∧
    dateRangeLabel (some "2022-02-01".data) (some "2022-03-01".data) = "2022".data := by
  refine ⟨?_, ?_, by decide, by decide⟩
  case refine_2 =>
    intro pa pb hpa hpb
    have hcond : (pyTruthy pa && pyTruthy pb) = true := by rw [hpa, hpb]; rfl
    constructor
    · intro hyr
      rw [dateRangeLabel, if_pos hcond]
      simp only [hpa, hpb, if_true]
      rw [if_pos hyr]
    · intro hyr
      rw [dateRangeLabel, if_pos hcond]
      simp only [hpa, hpb, if_true]
      rw [if_neg hyr]
  intro pa pb
  by_cases hp : pyTruthy pa = true ∧ pyTruthy pb = true
  · have hcond : (pyTruthy pa && pyTruthy pb) = true := by
      rw [hp.1, hp.2]; rfl
    constructor
    · intro heq
      exfalso
      rw [dateRangeLabel, if_pos hcond] at heq
      by_cases hyr : (if pyTruthy pa = true then (pa.getD []).take 4 else "all".data) =
          (if pyTruthy pb = true then (pb.getD []).take 4 else "all".data)
      · rw [if_pos hyr] at heq
        have hlen := congrArg List.length heq
        simp only [hp.1, if_true] at hlen
        have : ((pa.getD []).take 4).length ≤ 4 := by simp
        simp at hlen
        omega
      · rw [if_neg hyr] at heq
        have hlen := congrArg List.length heq
        simp only [hp.1, hp.2, if_true, List.length_append, List.length_cons] at hlen
        have h4a : ((pa.getD []).take 4).length ≤ 4 := by simp
        have h4b : ((pb.getD []).take 4).length ≤ 4 := by simp
        have hlena : ((pa.getD []).take 4).length = 4 := by
          simp at hlen ⊢
          omega
        simp only [hp.1, hp.2, if_true] at heq
        have hsplit : (['a', 'l', 'l', '_', 'd', 'a', 't', 'e', 's'] : Str) =
            ['a', 'l', 'l', '_'] ++ 'd' :: ['a', 't', 'e', 's'] := by decide
        rw [hsplit] at heq
        have hinj := List.append_inj heq (by simpa using hlena)
        have := hinj.2
        simp at this
    · intro hnp
      exact absurd hp hnp
  · have hcond : (pyTruthy pa && pyTruthy pb) = false := by
      cases hA : pyTruthy pa <;> cases hB : pyTruthy pb <;> simp_all
    rw [dateRangeLabel, if_neg (by simp [hcond])]
    simp [hp]

/-! ## Date lemmas (claim C7) -/

theorem toDigit_le_of_isDigit (c : Char) (h : c.isDigit = true) : toDigit c ≤ 9 := by
  simp [Char.isDigit] at h
  obtain ⟨h1, h2⟩ := h
  have h2n : c.val.toNat ≤ 57 := h2
  have h1n : 48 ≤ c.val.toNat := h1
  show c.toNat - 48 ≤ 9
  have he : c.toNat = c.val.toNat := rfl
  omega

theorem digitChar_isDigit (n : Nat) (h : n < 10) : (Nat.digitChar n).isDigit = true := by
  interval_cases n <;> decide

theorem toDigit_digitChar (n : Nat) (h : n < 10) : toDigit (Nat.digitChar n) = n := by
  interval_cases n <;> decide

theorem digitChar_mod_isDigit (m : Nat) : (Nat.digitChar (m % 10)).isDigit = true :=
  digitChar_isDigit _ (Nat.mod_lt _ (by norm_num))

theorem toDigit_digitChar_mod (m : Nat) : toDigit (Nat.digitChar (m % 10)) = m % 10 :=
  toDigit_digitChar _ (Nat.mod_lt _ (by norm_num))

theorem digitChar_mod_ne_Z (m : Nat) : Nat.digitChar (m % 10) ≠ 'Z' := by
  have h : m % 10 < 10 := Nat.mod_lt _ (by norm_num)
  generalize hk : m % 10 = k at h
  interval_cases k <;> decide

theorem digitChar_mod_not_pm (m : Nat) :
    ¬(Nat.digitChar (m % 10) = '+' ∨ Nat.digitChar (m % 10) = '-') := by
  have h : m % 10 < 10 := Nat.mod_lt _ (by norm_num)
  generalize hk : m % 10 = k at h
  interval_cases k <;> decide

theorem splitTzStr_append (a b : Str) (h : ∀ c ∈ a, ¬(c = '+' ∨ c = '-')) :
    splitTzStr (a ++ '+' :: b) = (a, '+' :: b) := by
  induction a with
  | nil => simp [splitTzStr]
  | cons c cs ih =>
    have hc := h c (by simp)
    have hcs : ∀ x ∈ cs, ¬(x = '+' ∨ x = '-') := fun x hx => h x (by simp [hx])
    simp only [List.cons_append, splitTzStr, hc, if_false, List.append_eq]
    rw [ih hcs]

theorem daysInMonth_pos (y m : Nat) : 1 ≤ daysInMonth y m := by
  unfold daysInMonth
  split
  · split <;> omega
  · split <;> omega

theorem daysInMonth_dec (y : Nat) : daysInMonth y 12 = 31 := by
  unfold daysInMonth
  norm_num

theorem prevDay_valid {d d2 : PyDateTime} (hv : ValidDT d) (h : prevDay d = some d2) :
    ValidDT d2 := by
  obtain ⟨yy, mm, dd, hh, mi, ss⟩ := d
  obtain ⟨hy1, hy2, hm1, hm2, hd1, hd2, hhh, hmi, hs⟩ := hv
  dsimp only at hy1 hy2 hm1 hm2 hd1 hd2 hhh hmi hs
  unfold prevDay at h
  dsimp only at h
  split at h
  · simp only [Option.some.injEq] at h
    subst h
    exact ⟨hy1, hy2, hm1, hm2, show 1 ≤ dd - 1 by omega,
      show dd - 1 ≤ daysInMonth yy mm by omega, hhh, hmi, hs⟩
  · split at h
    · simp only [Option.some.injEq] at h
      subst h
      exact ⟨hy1, hy2, show 1 ≤ mm - 1 by omega, show mm - 1 ≤ 12 by omega,
        daysInMonth_pos yy (mm - 1), le_rfl, hhh, hmi, hs⟩
    · split at h
      · simp only [Option.some.injEq] at h
        subst h
        exact ⟨show 1 ≤ yy - 1 by omega, show yy - 1 ≤ 9999 by omega,
          by norm_num, by norm_num, by norm_num,
          show (31 : Nat) ≤ daysInMonth (yy - 1) 12 by rw [daysInMonth_dec], hhh, hmi, hs⟩
      · exact Option.noConfusion h

theorem nextDay_valid {d d2 : PyDateTime} (hv : ValidDT d) (h : nextDay d = some d2) :
    ValidDT d2 := by
  obtain ⟨yy, mm, dd, hh, mi, ss⟩ := d
  obtain ⟨hy1, hy2, hm1, hm2, hd1, hd2, hhh, hmi, hs⟩ := hv
  dsimp only at hy1 hy2 hm1 hm2 hd1 hd2 hhh hmi hs
  unfold nextDay at h
  dsimp only at h
  split at h
  · simp only [Option.some.injEq] at h
    subst h
    exact ⟨hy1, hy2, hm1, hm2, show 1 ≤ dd + 1 by omega,
      show dd + 1 ≤ daysInMonth yy mm by omega, hhh, hmi, hs⟩
  · split at h
    · simp only [Option.some.injEq] at h
      subst h
      exact ⟨hy1, hy2, show 1 ≤ mm + 1 by omega, show mm + 1 ≤ 12 by omega,
        le_rfl, daysInMonth_pos yy (mm + 1), hhh, hmi, hs⟩
    · split at h
      · simp only [Option.some.injEq] at h
        subst h
        exact ⟨show 1 ≤ yy + 1 by omega, show yy + 1 ≤ 9999 by omega,
          by norm_num, by norm_num, le_rfl, daysInMonth_pos (yy + 1) 1, hhh, hmi, hs⟩
      · exact Option.noConfusion h

theorem shiftBackDays_valid : ∀ (n : Nat) {d d2 : PyDateTime}, ValidDT d →
    shiftBackDays n d = some d2 → ValidDT d2 := by
  intro n
  induction n with
  | zero =>
    intro d d2 hv h
    simp only [shiftBackDays, Option.some.injEq] at h
    subst h
    exact hv
  | succ m ih =>
    intro d d2 hv h
    unfold shiftBackDays at h
    cases hp : prevDay d with
    | none => rw [hp] at h; exact Option.noConfusion h
    | some d3 =>
      rw [hp] at h
      exact ih (prevDay_valid hv hp) h

theorem shiftFwdDays_valid : ∀ (n : Nat) {d d2 : PyDateTime}, ValidDT d →
    shiftFwdDays n d = some d2 → ValidDT d2 := by
  intro n
  induction n with
  | zero =>
    intro d d2 hv h
    simp only [shiftFwdDays, Option.some.injEq] at h
    subst h
    exact hv
  | succ m ih =>
    intro d d2 hv h
    unfold shiftFwdDays at h
    cases hp : nextDay d with
    | none => rw [hp] at h; exact Option.noConfusion h
    | some d3 =>
      rw [hp] at h
      exact ih (nextDay_valid hv hp) h

theorem parseTimePart_bounds {t : Str} {hh mi ss : Nat}
    (h : parseTimePart t = some (hh, mi, ss)) : hh ≤ 23 ∧ mi ≤ 59 ∧ ss ≤ 59 := by
  unfold parseTimePart at h
  split at h
  · dsimp only at h
    split at h
    · split at h
      · rename_i hguard
        simp only [Bool.and_eq_true, decide_eq_true_eq] at hguard
        simp only [Option.some.injEq, Prod.mk.injEq] at h
        omega
      · exact Option.noConfusion h
    · split at h
      · rename_i hguard
        simp only [Bool.and_eq_true, decide_eq_true_eq] at hguard
        simp only [Option.some.injEq, Prod.mk.injEq] at h
        omega
      · exact Option.noConfusion h
    · split at h
      · rename_i hguard
        simp only [Bool.and_eq_true, decide_eq_true_eq] at hguard
        split at h
        · simp only [Option.some.injEq, Prod.mk.injEq] at h
          omega
        · exact Option.noConfusion h
      · exact Option.noConfusion h
    · exact Option.noConfusion h
  · exact Option.noConfusion h

theorem pyFromIsoformat_valid {s : Str} {d : PyDateTime}
    (h : pyFromIsoformat s = some d) : ValidDT d := by
  unfold pyFromIsoformat at h
  split at h
  · rename_i y1 y2 y3 y4 mo1 mo2 d1 d2 rest
    split at h
    · rename_i hdig
      simp only [Bool.and_eq_true] at hdig
      have hb1 : toDigit y1 ≤ 9 := toDigit_le_of_isDigit _ hdig.1.1.1.1.1.1.1
      have hb2 : toDigit y2 ≤ 9 := toDigit_le_of_isDigit _ hdig.1.1.1.1.1.1.2
      have hb3 : toDigit y3 ≤ 9 := toDigit_le_of_isDigit _ hdig.1.1.1.1.1.2
      have hb4 : toDigit y4 ≤ 9 := toDigit_le_of_isDigit _ hdig.1.1.1.1.2
      dsimp only at h
      split at h
      · rename_i hrange
        obtain ⟨hr1, hr2, hr3, hr4, hr5⟩ := hrange
        split at h
        · simp only [Option.some.injEq] at h
          subst h
          exact ⟨hr1,
            show toDigit y1 * 1000 + toDigit y2 * 100 + toDigit y3 * 10 + toDigit y4 ≤ 9999
              by omega,
            hr2, hr3, hr4, hr5, show (0 : Nat) ≤ 23 by norm_num,
            show (0 : Nat) ≤ 59 by norm_num, show (0 : Nat) ≤ 59 by norm_num⟩
        · rename_i sep t
          cases hpt : parseTimePart t with
          | none => rw [hpt] at h; exact Option.noConfusion h
          | some tri =>
            obtain ⟨hh, mi, ss⟩ := tri
            rw [hpt] at h
            simp only [Option.some.injEq] at h
            subst h
            have hbt := parseTimePart_bounds hpt
            exact ⟨hr1,
              show toDigit y1 * 1000 + toDigit y2 * 100 + toDigit y3 * 10 + toDigit y4 ≤ 9999
                by omega,
              hr2, hr3, hr4, hr5, hbt.1, hbt.2.1, hbt.2.2⟩
      · exact Option.noConfusion h
    · exact Option.noConfusion h
  · exact Option.noConfusion h

theorem daysInMonth_le (y m : Nat) : daysInMonth y m ≤ 31 := by
  unfold daysInMonth
  split
  · split <;> omega
  · split <;> omega

theorem replaceZ_formatDT (d : PyDateTime) :
    replaceZ (formatDT d) =
      Nat.digitChar (d.year / 1000 % 10) :: Nat.digitChar (d.year / 100 % 10) ::
      Nat.digitChar (d.year / 10 % 10) :: Nat.digitChar (d.year % 10) :: '-' ::
      Nat.digitChar (d.month / 10 % 10) :: Nat.digitChar (d.month % 10) :: '-' ::
      Nat.digitChar (d.day / 10 % 10) :: Nat.digitChar (d.day % 10) :: 'T' ::
      Nat.digitChar (d.hour / 10 % 10) :: Nat.digitChar (d.hour % 10) :: ':' ::
      Nat.digitChar (d.minute / 10 % 10) :: Nat.digitChar (d.minute % 10) :: ':' ::
      Nat.digitChar (d.second / 10 % 10) :: Nat.digitChar (d.second % 10) ::
      '+' :: '0' :: '0' :: ':' :: '0' :: '0' :: [] := by
  simp [formatDT, fourDig, twoDig, replaceZ, digitChar_mod_ne_Z]

theorem parseTimePart_digitChain (h mi s : Nat) :
    parseTimePart (Nat.digitChar (h / 10 % 10) :: Nat.digitChar (h % 10) :: ':' ::
      Nat.digitChar (mi / 10 % 10) :: Nat.digitChar (mi % 10) :: ':' ::
      Nat.digitChar (s / 10 % 10) :: Nat.digitChar (s % 10) ::
      '+' :: '0' :: '0' :: ':' :: '0' :: '0' :: []) =
    (if h / 10 % 10 * 10 + h % 10 < 24 ∧ mi / 10 % 10 * 10 + mi % 10 < 60 ∧
        s / 10 % 10 * 10 + s % 10 < 60 then
      some (h / 10 % 10 * 10 + h % 10, mi / 10 % 10 * 10 + mi % 10, s / 10 % 10 * 10 + s % 10)
    else none) := by
  have hsplit := splitTzStr_append
    (Nat.digitChar (h / 10 % 10) :: Nat.digitChar (h % 10) :: ':' ::
      Nat.digitChar (mi / 10 % 10) :: Nat.digitChar (mi % 10) :: ':' ::
      Nat.digitChar (s / 10 % 10) :: Nat.digitChar (s % 10) :: [])
    ('0' :: '0' :: ':' :: '0' :: '0' :: [])
    (by
      intro c hc
      simp only [List.mem_cons, List.not_mem_nil, or_false] at hc
      rcases hc with rfl | rfl | rfl | rfl | rfl | rfl | rfl | rfl
      · exact digitChar_mod_not_pm _
      · exact digitChar_mod_not_pm _
      · decide
      · exact digitChar_mod_not_pm _
      · exact digitChar_mod_not_pm _
      · decide
      · exact digitChar_mod_not_pm _
      · exact digitChar_mod_not_pm _)
  unfold parseTimePart
  rw [show (Nat.digitChar (h / 10 % 10) :: Nat.digitChar (h % 10) :: ':' ::
      Nat.digitChar (mi / 10 % 10) :: Nat.digitChar (mi % 10) :: ':' ::
      Nat.digitChar (s / 10 % 10) :: Nat.digitChar (s % 10) ::
      '+' :: '0' :: '0' :: ':' :: '0' :: '0' :: []) =
    (Nat.digitChar (h / 10 % 10) :: Nat.digitChar (h % 10) :: ':' ::
      Nat.digitChar (mi / 10 % 10) :: Nat.digitChar (mi % 10) :: ':' ::
      Nat.digitChar (s / 10 % 10) :: Nat.digitChar (s % 10) :: []) ++
      '+' :: ('0' :: '0' :: ':' :: '0' :: '0' :: []) from rfl]
  rw [hsplit]
  simp only [digitChar_mod_isDigit, Bool.and_self, Bool.true_and, toDigit_digitChar_mod]
  rw [if_pos (show tzOk ['+', '0', '0', ':', '0', '0'] = true from rfl)]
  split
  · rename_i hcond
    simp only [Bool.and_eq_true, decide_eq_true_eq] at hcond
    rw [if_pos (show _ ∧ _ ∧ _ from ⟨hcond.1.1, hcond.1.2, hcond.2⟩)]
    rfl
  · rename_i hcond
    refine (if_neg ?_).symm
    intro hx
    exact hcond (by
      simp only [Bool.and_eq_true, decide_eq_true_eq]
      exact ⟨⟨hx.1, hx.2.1⟩, hx.2.2⟩)

theorem pyFromIsoformat_formatDT {d : PyDateTime} (hv : ValidDT d) :
    pyFromIsoformat (replaceZ (formatDT d)) = some d := by
  obtain ⟨yy, mm, dd, hh, mi, ss⟩ := d
  obtain ⟨hy1, hy2, hm1, hm2, hd1, hd2, hhh, hmiv, hsv⟩ := hv
  dsimp only at hy1 hy2 hm1 hm2 hd1 hd2 hhh hmiv hsv
  rw [replaceZ_formatDT]
  dsimp only
  simp only [pyFromIsoformat, digitChar_mod_isDigit, Bool.and_self, if_true,
    toDigit_digitChar_mod]
  have hd31 : daysInMonth yy mm ≤ 31 := daysInMonth_le yy mm
  have hyval : yy / 1000 % 10 * 1000 + yy / 100 % 10 * 100 + yy / 10 % 10 * 10 + yy % 10 = yy := by
    have b1 : yy / 10 / 10 = yy / 100 := by rw [Nat.div_div_eq_div_mul]
    have b2 : yy / 100 / 10 = yy / 1000 := by rw [Nat.div_div_eq_div_mul]
    have b3 : yy / 1000 / 10 = yy / 10000 := by rw [Nat.div_div_eq_div_mul]
    omega
  have hmoval : mm / 10 % 10 * 10 + mm % 10 = mm := by omega
  have hddval : dd / 10 % 10 * 10 + dd % 10 = dd := by omega
  have hhval : hh / 10 % 10 * 10 + hh % 10 = hh := by omega
  have hmival : mi / 10 % 10 * 10 + mi % 10 = mi := by omega
  have hssval : ss / 10 % 10 * 10 + ss % 10 = ss := by omega
  rw [hyval, hmoval, hddval]
  rw [if_pos (show 1 ≤ yy ∧ 1 ≤ mm ∧ mm ≤ 12 ∧ 1 ≤ dd ∧ dd ≤ daysInMonth yy mm from
    ⟨hy1, hm1, hm2, hd1, hd2⟩)]
  rw [parseTimePart_digitChain]
  rw [hhval, hmival, hssval]
  rw [if_pos (show hh < 24 ∧ mi < 60 ∧ ss < 60 by omega)]

/-- Counterexample for C7: the claim fails for a parsable date near the
calendar's lower bound: buffering `publishedAfter = 0001-01-01T00:00:00Z`
by 5 days underflows `datetime.min`, raising an `OverflowError` that the
code's `except ValueError` does not catch, so `scrape_channel` aborts
instead of passing an adjusted date downstream. -/
theorem c7_counterexample :
    scrapeDateArgs (some "0001-01-01T00:00:00Z".data) none 5 = Except.error () := rfl

/-- C7 (amended): for every parsable `publishedAfter`/`publishedBefore` and
`bufferDays > 0` whose day-shift stays inside the representable year range
1..9999, `scrape_channel` passes downstream the value moved backward
(resp. forward) by exactly `bufferDays` calendar days, re-serialized in the
same format (the adjusted string parses back to exactly the shifted date);
a shift crossing the calendar bound raises an uncaught `OverflowError`
(see the counterexample); for every unparsable date the value is passed
downstream unchanged and only a warning is emitted; and
`publishedAfter = 2022-01-01T00:00:00Z` with `bufferDays = 5` becomes
`2021-12-27T00:00:00Z`. -/
theorem c7_date_buffering_amended :
    (∀ (s : Str) (b : Nat) (d d2 : PyDateTime), 0 < b → s ≠ [] →
      pyFromIsoformat (replaceZ s) = some d → shiftBackDays b d = some d2 →
      applyBufferAfter (some s) b = Except.ok (some (formatDT d2), false) ∧
      pyFromIsoformat (replaceZ (formatDT d2)) = some d2) ∧
    (∀ (s : Str) (b : Nat) (d d2 : PyDateTime), 0 < b → s ≠ [] →
      pyFromIsoformat (replaceZ s) = some d → shiftFwdDays b d = some d2 →
      applyBufferBefore (some s) b = Except.ok (some (formatDT d2), false) ∧
      pyFromIsoformat (replaceZ (formatDT d2)) = some d2) ∧
    (∀ (s : Str) (b : Nat), 0 < b → s ≠ [] → pyFromIsoformat (replaceZ s) = none →
      applyBufferAfter (some s) b = Except.ok (some s, true) ∧
      applyBufferBefore (some s) b = Except.ok (some s, true)) ∧
    scrapeDateArgs (some "2022-01-01T00:00:00Z".data) none 5 =
      Except.ok ((some "2021-12-27T00:00:00Z".data, none), false) := by
  refine ⟨?_, ?_, ?_, rfl⟩
  · intro s b d d2 hb hs hp hsh
    constructor
    · simp [applyBufferAfter, hs, hb, hp, hsh]
    · exact pyFromIsoformat_formatDT (shiftBackDays_valid b (pyFromIsoformat_valid hp) hsh)
  · intro s b d d2 hb hs hp hsh
    constructor
    · simp [applyBufferBefore, hs, hb, hp, hsh]
    · exact pyFromIsoformat_formatDT (shiftFwdDays_valid b (pyFromIsoformat_valid hp) hsh)
  · intro s b hb hs hp
    constructor
    · simp [applyBufferAfter, hs, hb, hp]
    · simp [applyBufferBefore, hs, hb, hp]

/-- Witness for C7 (amended): the backward-shift clause at the
specification's own example. -/
theorem c7_date_buffering_amended_witness :
    applyBufferAfter (some "2022-01-01T00:00:00Z".data) 5 =
      Except.ok (some (formatDT ⟨2021, 12, 27, 0, 0, 0⟩), false) ∧
    pyFromIsoformat (replaceZ (formatDT ⟨2021, 12, 27, 0, 0, 0⟩)) =
      some ⟨2021, 12, 27, 0, 0, 0⟩ :=
  c7_date_buffering_amended.1 "2022-01-01T00:00:00Z".data 5
    ⟨2022, 1, 1, 0, 0, 0⟩ ⟨2021, 12, 27, 0, 0, 0⟩
    (by decide) (by decide) rfl rfl

/-- Witness for C8 (amended): the iff applied to a concrete one-sided
window. -/
theorem c8_amended_label_witness :
    dateRangeLabel none (some "2022-12-31".data) = "all_dates".data :=
  (c8_amended_label.1 none (some "2022-12-31".data)).mpr (by decide)
